import Mathlib

/-!
# Verification of the invoice-OCR structuring core (`procesador_facturas.py`)

Shallow embedding of the pure core of `procesador_facturas.py`: word
filtering, line grouping, column detection, the row-classification state
machine, detail assignment/consolidation, amount normalization and the
coherence check.  The OCR engine and image preprocessing are external
collaborators; the embedding takes the recognized-word list (the fields of
Tesseract's `image_to_data` dict) as input.

Machine reals never appear in the modelled code paths: Python `Decimal` is
exact decimal arithmetic, modelled by `ℚ`.  Python `float(s)` (used only to
parse the quantity token before truncation) is modelled by the same exact
decimal-string parser; the binary rounding of `float` is not observable for
the short numeric tokens this program handles.  Python's exotic numeric
string forms (`inf`, `nan`, `_` digit grouping, non-ASCII digits) are not
modelled.
-/

namespace Facturas

/-! ## String helpers

Structural models of the Python string operations used by the source
(`str.lower`, `in` substring test, `str.strip`, `str.replace`, `str.split`,
`' '.join`).  They operate on the character lists so that every concrete
instance evaluates inside the kernel. -/

/-- Python `str.lower()` for the characters this program can meet: ASCII
letters plus the Spanish accented letters appearing in the alias table. -/
def minusculaChar (c : Char) : Char :=
  if 'A' ≤ c ∧ c ≤ 'Z' then Char.ofNat (c.toNat + 32)
  else if c = 'Á' then 'á'
  else if c = 'É' then 'é'
  else if c = 'Í' then 'í'
  else if c = 'Ó' then 'ó'
  else if c = 'Ú' then 'ú'
  else if c = 'Ñ' then 'ñ'
  else if c = 'Ü' then 'ü'
  else c

/-- Python `s.lower()`. -/
def pyLower (s : String) : String := String.mk (s.toList.map minusculaChar)

/-- Does `sub` occur at the start of `s`? -/
def empiezaCon : List Char → List Char → Bool
  | [], _ => true
  | _ :: _, [] => false
  | a :: as, b :: bs => a == b && empiezaCon as bs

/-- Does `sub` occur somewhere inside `s`?  (Python `sub in s`.) -/
def apareceEn (sub : List Char) : List Char → Bool
  | [] => sub.isEmpty
  | c :: resto => empiezaCon sub (c :: resto) || apareceEn sub resto

/-- Python substring containment `sub in s`. -/
def esSubcadena (sub s : String) : Bool := apareceEn sub.toList s.toList

/-- Python `s.strip()`: drop surrounding whitespace. -/
def recortar (s : String) : String :=
  String.mk (((s.toList.dropWhile Char.isWhitespace).reverse.dropWhile
      Char.isWhitespace).reverse)

/-- Python `' '.join(ts)`. -/
def unirConEspacios : List String → String
  | [] => ""
  | [t] => t
  | t :: resto => t ++ " " ++ unirConEspacios resto

/-! ## Exact numeric-string parsing

Models `decimal.Decimal(s)` (and, for the quantity token, `float(s)`) on the
plain numeric-string grammar `[ws] [sign] (digits [. digits] | . digits)
[(e|E) [sign] digits] [ws]`; every other string is a parse failure. -/

/-- Numeric value of a digit string (most significant first). -/
def valorDigitos (cs : List Char) : Nat := cs.foldl (fun a c => 10 * a + (c.toNat - 48)) 0

/-- The exact value `sgn * m * 10 ^ (e - fracLen)` as a rational. -/
def valorExacto (sgn : Int) (m : Nat) (fracLen : Nat) (e : Int) : ℚ :=
  let e2 : Int := e - fracLen
  if 0 ≤ e2 then mkRat (sgn * (m : Int) * ((10 ^ e2.toNat : Nat) : Int)) 1
  else mkRat (sgn * (m : Int)) (10 ^ (-e2).toNat)

/-- Parse `digits [. digits]` into (digit value, number of fraction digits). -/
def parseMantisa (cs : List Char) : Option (Nat × Nat) :=
  let ent := cs.takeWhile Char.isDigit
  match cs.dropWhile Char.isDigit with
  | [] => if ent.isEmpty then none else some (valorDigitos ent, 0)
  | '.' :: frac =>
    if frac.all Char.isDigit then
      if ent.isEmpty && frac.isEmpty then none
      else some (valorDigitos (ent ++ frac), frac.length)
    else none
  | _ => none

/-- Parse `[sign] digits` as an exponent. -/
def parseExponente (cs : List Char) : Option Int :=
  let par : Int × List Char :=
    match cs with
    | '+' :: r => (1, r)
    | '-' :: r => (-1, r)
    | r => (1, r)
  if par.2.isEmpty then none
  else if par.2.all Char.isDigit then some (par.1 * (valorDigitos par.2 : Int))
  else none

/-- Is `c` the exponent marker of a numeric literal? -/
def esMarcaExp (c : Char) : Bool := c == 'e' || c == 'E'

/-- Exact-value parse of a numeric string (model of `Decimal(s)` and of
`float(s)` restricted to the grammar above); `none` on any malformed
string, as `Decimal` raises `InvalidOperation` and `float` raises
`ValueError` there. -/
def parseNumero (s : String) : Option ℚ :=
  let cs1 := ((s.toList.dropWhile Char.isWhitespace).reverse.dropWhile
      Char.isWhitespace).reverse
  let par : Int × List Char :=
    match cs1 with
    | '+' :: r => (1, r)
    | '-' :: r => (-1, r)
    | r => (1, r)
  let mant := par.2.takeWhile (fun c => !esMarcaExp c)
  match parseMantisa mant with
  | none => none
  | some mf =>
    match par.2.dropWhile (fun c => !esMarcaExp c) with
    | [] => some (valorExacto par.1 mf.1 mf.2 0)
    | _ :: expCs =>
      match parseExponente expCs with
      | none => none
      | some e => some (valorExacto par.1 mf.1 mf.2 e)

/-! ## `normalizar_monto` (lines 43-56 of the source) -/

/-- `normalizar_monto`: strip every `'.'`, turn every `','` into `'.'`,
rejoin a token that still holds several `'.'`, then parse as an exact
decimal; `None` (here `none`) when the parse fails. -/
def normalizar_monto (monto_str : String) : Option ℚ :=
  let sinPuntos := monto_str.toList.filter (fun c => c ≠ '.')
  let normalizado := sinPuntos.map (fun c => if c = ',' then '.' else c)
  let partes := List.splitOn '.' normalizado
  let final :=
    if partes.length > 2 then partes.dropLast.flatten ++ ('.' :: partes.getLastD [])
    else normalizado
  parseNumero (String.mk final)

/-! ## Data model -/

/-- One entry of the `image_to_data` dict: recognized text, bounding box and
confidence, before any filtering. -/
structure PalabraRaw where
  text : String
  left : Int
  top : Int
  width : Int
  height : Int
  conf : Int
deriving DecidableEq, Repr

/-- A word kept by the confidence filter (lines 71-81): stripped text plus
bounding box, exactly the keys the source stores. -/
structure Palabra where
  text : String
  left : Int
  top : Int
  width : Int
  height : Int
deriving DecidableEq, Repr

/-- Word filter (lines 71-81): keep a word when its stripped text is
non-empty and its confidence is strictly above 60; the kept word carries the
stripped text. -/
def palabrasFiltradas (datos : List PalabraRaw) : List Palabra :=
  datos.filterMap (fun d =>
    let texto := recortar d.text
    if texto ≠ "" ∧ d.conf > 60 then
      some { text := texto, left := d.left, top := d.top, width := d.width,
             height := d.height }
    else none)

/-! ## Stable sorting

Python `list.sort` / `sorted` are stable sorts; for a total preorder a
stable sort has a unique result, so the structurally recursive stable
insertion sort below computes exactly what the source computes. -/

/-- Insert into a sorted list, before the first element that `a` may
precede (stable: keeps `a` before later equal keys). -/
def insertarOrd {α : Type} (le : α → α → Bool) (a : α) : List α → List α
  | [] => [a]
  | b :: bs => if le a b then a :: b :: bs else b :: insertarOrd le a bs

/-- Stable insertion sort. -/
def ordenarEstable {α : Type} (le : α → α → Bool) : List α → List α
  | [] => []
  | a :: as => insertarOrd le a (ordenarEstable le as)

/-- The sort key of line 84: `(top, left)` lexicographically. -/
def claveTopLeft (a b : Palabra) : Bool :=
  decide (a.top < b.top ∨ (a.top = b.top ∧ a.left ≤ b.left))

/-- The sort key of lines 97/99: `left`. -/
def clavePorLeft (a b : Palabra) : Bool := decide (a.left ≤ b.left)

/-- Line 84: sort all filtered words by `(top, left)`. -/
def ordenarPalabras (ps : List Palabra) : List Palabra := ordenarEstable claveTopLeft ps

/-- Lines 97/99: re-sort a finished line by `left`. -/
def ordenarPorLeft (ps : List Palabra) : List Palabra := ordenarEstable clavePorLeft ps

/-! ## Line grouping (lines 86-99) -/

/-- Close the open line: the accumulator holds the line in reverse
(most recently appended word first); emit it sorted by `left`. -/
def cerrarLinea (rev : List Palabra) : List Palabra := ordenarPorLeft rev.reverse

/-- The walk of lines 90-99.  `rev` is `linea_actual` reversed, so its head
is the previously-appended word (`linea_actual[-1]`); a word joins the open
line exactly when its `top` differs from that word's `top` by fewer than 20
pixels. -/
def agruparAux (rev : List Palabra) : List Palabra → List (List Palabra)
  | [] => [cerrarLinea rev]
  | p :: resto =>
    match rev with
    | [] => agruparAux [p] resto
    | prev :: _ =>
      if (p.top - prev.top).natAbs < 20 then agruparAux (p :: rev) resto
      else cerrarLinea rev :: agruparAux [p] resto

/-- Lines 87-99: group the `(top, left)`-sorted words into lines. -/
def agruparLineas : List Palabra → List (List Palabra)
  | [] => []
  | p :: resto => agruparAux [p] resto

/-- Proof apparatus: the chronological runs underlying `agruparAux` — the
grouped lines before the final per-line sort by `left`. -/
def runsAux (rev : List Palabra) : List Palabra → List (List Palabra)
  | [] => [rev.reverse]
  | p :: resto =>
    match rev with
    | [] => runsAux [p] resto
    | prev :: _ =>
      if (p.top - prev.top).natAbs < 20 then runsAux (p :: rev) resto
      else rev.reverse :: runsAux [p] resto

/-- Proof apparatus: the chronological runs of a whole word list. -/
def runsDe : List Palabra → List (List Palabra)
  | [] => []
  | p :: resto => runsAux [p] resto

/-- The `(top, left)`-sorted filtered words of a document (line 84). -/
def palabrasOrdenadasDe (datos : List PalabraRaw) : List Palabra :=
  ordenarPalabras (palabrasFiltradas datos)

/-- The grouped lines of a document (lines 86-99). -/
def lineasDe (datos : List PalabraRaw) : List (List Palabra) :=
  agruparLineas (palabrasOrdenadasDe datos)

/-! ## Column detection (lines 104-137) -/

/-- The four canonical columns. -/
inductive Columna where
  | cant
  | descripcion
  | punit
  | importe
deriving DecidableEq, Repr

/-- `MAPEO_COLUMNAS` (lines 108-113): canonical column names with their
alias lists, in the declaration order of the Python dict literal. -/
def MAPEO_COLUMNAS : List (Columna × List String) :=
  [(Columna.cant, ["cant", "cantidad", "qty"]),
   (Columna.descripcion, ["descripción", "descripcion", "producto", "servicio", "concepto"]),
   (Columna.punit, ["p.unit", "unitario", "precio", "p/u"]),
   (Columna.importe, ["importe", "total", "subtotal", "valor"])]

/-- The `columnas` dict: association list in Python-dict insertion order. -/
abbrev MapaColumnas := List (Columna × Int)

/-- Python `k in dict`. -/
def tieneClave (m : MapaColumnas) (k : Columna) : Bool :=
  m.any (fun par => decide (par.1 = k))

/-- Python `dict[k] = v`: update in place when the key exists (keeping its
insertion position), append otherwise. -/
def ponerClave (m : MapaColumnas) (k : Columna) (v : Int) : MapaColumnas :=
  if tieneClave m k then m.map (fun par => if par.1 = k then (k, v) else par)
  else m ++ [(k, v)]

/-- Python `dict.get(k)` as an option. -/
def buscarClave (m : MapaColumnas) (k : Columna) : Option Int :=
  (m.find? (fun par => decide (par.1 = k))).map (fun par => par.2)

/-- Lines 122-129, body of the alias loop: when the alias occurs in the
joined lowered line text, find the first word whose lowered text holds the
alias and record its `left` as the column's anchor, setting `found_cols`. -/
def pasoAlias (lineaTexto : String) (linea : List Palabra) (c : Columna)
    (acc : MapaColumnas × Bool) (aliasCol : String) : MapaColumnas × Bool :=
  if esSubcadena aliasCol lineaTexto then
    match linea.find? (fun p => esSubcadena aliasCol (pyLower p.text)) with
    | some p => (ponerClave acc.1 c p.left, true)
    | none => acc
  else acc

/-- Lines 121-129, body of the column loop: run the alias loop over one
column's alias list. -/
def pasoColumna (lineaTexto : String) (linea : List Palabra)
    (acc : MapaColumnas × Bool) (par : Columna × List String) : MapaColumnas × Bool :=
  par.2.foldl (pasoAlias lineaTexto linea par.1) acc

/-- Lines 120-129: the full detection pass over one line; the boolean is
`found_cols`. -/
def detectarEnLinea (lineaTexto : String) (linea : List Palabra)
    (columnas : MapaColumnas) : MapaColumnas × Bool :=
  MAPEO_COLUMNAS.foldl (pasoColumna lineaTexto linea) (columnas, false)

/-! ## Row classification and detail extraction (lines 101-191) -/

/-- Line 116: joined, lowered text of a line. -/
def textoLinea (linea : List Palabra) : String :=
  pyLower (unirConEspacios (linea.map Palabra.text))

/-- Line 142: the amounts parseable from the line's words, in word order. -/
def montosEnLinea (linea : List Palabra) : List ℚ :=
  linea.filterMap (fun p => normalizar_monto p.text)

/-- Line 151: does the line text hold any column alias? -/
def contieneAliasDeColumna (lineaTexto : String) : Bool :=
  MAPEO_COLUMNAS.any (fun par => par.2.any (fun aliasCol => esSubcadena aliasCol lineaTexto))

/-- Line 158: distance from a word's `left` to an anchor. -/
def distanciaA (izq : Int) (par : Columna × Int) : Nat := (izq - par.2).natAbs

/-- Python `min(distancias, key=distancias.get)` keeps the first key whose
distance is not strictly beaten by a later one. -/
def minimaAux (izq : Int) (mejor : Columna) (mejorDist : Nat) : MapaColumnas → Columna
  | [] => mejor
  | par :: resto =>
    if distanciaA izq par < mejorDist then minimaAux izq par.1 (distanciaA izq par) resto
    else minimaAux izq mejor mejorDist resto

/-- Line 159: the anchored column nearest to `izq` (first one on ties, in
the dict's iteration order); `none` only for an empty dict. -/
def columnaCercana (izq : Int) : MapaColumnas → Option Columna
  | [] => none
  | par :: resto => some (minimaAux izq par.1 (distanciaA izq par) resto)

/-- Lines 155-160: the texts accumulated in `detalle_linea[c]`, in line
(left-to-right) order. -/
def textosAsignados (columnas : MapaColumnas) (linea : List Palabra) (c : Columna) :
    List String :=
  (linea.filter (fun p => columnaCercana p.left columnas == some c)).map Palabra.text

/-- Lines 167-169: `detalle_linea.get(col, [None])[0]`.  When the column is
anchored the entry is a list and an empty one raises `IndexError`
(`Except.error`); otherwise the default `[None]` yields `None`. -/
def primerTexto (columnas : MapaColumnas) (linea : List Palabra) (c : Columna) :
    Except Unit (Option String) :=
  if tieneClave columnas c then
    match textosAsignados columnas linea c with
    | [] => Except.error ()
    | t :: _ => Except.ok (some t)
  else Except.ok none

/-- Python truthiness of an optional string (`if cant_str`, `if importe_str`). -/
def esVerdadero : Option String → Bool
  | none => false
  | some s => s != ""

/-- Python `int(q)` on the exact value of a float: truncation toward zero. -/
def pyTruncar (q : ℚ) : Int := q.num.tdiv q.den

/-- Line 176: `int(float(s))`, as an option (`ValueError` on parse failure). -/
def pyEnteroDeFloat (s : String) : Option Int := (parseNumero s).map pyTruncar

/-- Python `s.replace(',', '.')`. -/
def comasAPuntosStr (s : String) : String :=
  String.mk (s.toList.map (fun c => if c = ',' then '.' else c))

/-- A consolidated line item (lines 175-180). -/
structure Detalle where
  cant : Int
  descripcion : String
  punit : Option ℚ
  importe : ℚ
deriving DecidableEq, Repr

/-- Line 176: `int(float(cant_str.replace(',', '.'))) if cant_str else 1`,
as an option (`none` when `float` raises `ValueError`). -/
def cantidadDe (cantStr : Option String) : Option Int :=
  if esVerdadero cantStr then
    match cantStr with
    | some cs => pyEnteroDeFloat (comasAPuntosStr cs)
    | none => none
  else some 1

/-- Line 178: `normalizar_monto(punit_str) if punit_str else importe`. -/
def punitDe (punitStr : Option String) (importe : ℚ) : Option ℚ :=
  if esVerdadero punitStr then
    match punitStr with
    | some ps => normalizar_monto ps
    | none => none
  else some importe

/-- Lines 173-180 with the amount text in hand: parse the amount, parse the
quantity (whose failure discards the line) and build the record. -/
def camposConImporte (cantStr punitStr : Option String) (istr : String) (desc : String) :
    Option Detalle :=
  match normalizar_monto istr with
  | some importe =>
    match cantidadDe cantStr with
    | some n =>
      some { cant := n, descripcion := desc, punit := punitDe punitStr importe,
             importe := importe }
    | none => none
  | none => none

/-- Lines 171-180: the guard `importe_str and desc`, then the consolidation
of the three parsed fields. -/
def consolidarCampos (cantStr punitStr importeStr : Option String) (desc : String) :
    Option Detalle :=
  if esVerdadero importeStr ∧ desc ≠ "" then
    match importeStr with
    | some istr => camposConImporte cantStr punitStr istr desc
    | none => none
  else none

/-- Lines 162-182: consolidate one detail line; `none` when the `try` body
raises (`IndexError` on an anchored-but-empty slot, `ValueError` on a bad
quantity, in the source's evaluation order) or when the guard
`importe_str and desc` fails or the amount does not parse. -/
def consolidarDetalle (columnas : MapaColumnas) (linea : List Palabra) : Option Detalle :=
  let desc := unirConEspacios (textosAsignados columnas linea Columna.descripcion)
  match primerTexto columnas linea Columna.cant with
  | Except.error _ => none
  | Except.ok cantStr =>
    match primerTexto columnas linea Columna.punit with
    | Except.error _ => none
    | Except.ok punitStr =>
      match primerTexto columnas linea Columna.importe with
      | Except.error _ => none
      | Except.ok importeStr => consolidarCampos cantStr punitStr importeStr desc

/-- The classification states of line 105. -/
inductive Estado where
  | buscandoColumnas
  | extrayendoDetalles
  | buscandoTotal
deriving DecidableEq, Repr

/-- The mutable locals of `reconocer_factura`'s parsing loop. -/
structure EstadoProc where
  detalles : List Detalle
  total_factura : Option ℚ
  columnas : MapaColumnas
  estado : Estado
deriving DecidableEq, Repr

/-- Lines 102-105: initial loop state. -/
def estadoInicial : EstadoProc :=
  { detalles := [], total_factura := none, columnas := [], estado := Estado.buscandoColumnas }

/-- Lines 148-182: the detail-extraction block; runs only in state
`extrayendo_detalles` with a non-empty anchor dict, skips residual header
lines, and appends the consolidated detail when there is one. -/
def pasoDetalles (st : EstadoProc) (linea : List Palabra) (lineaTexto : String) :
    EstadoProc :=
  if st.estado = Estado.extrayendoDetalles ∧ st.columnas ≠ [] then
    if contieneAliasDeColumna lineaTexto then st
    else
      match consolidarDetalle st.columnas linea with
      | some d => { st with detalles := st.detalles ++ [d] }
      | none => st
  else st

/-- Lines 139-146 then 148-182: total detection (outside
`buscando_columnas`) followed, when it does not consume the line, by the
detail block.  A `"total"` line whose words yield at least one parseable
amount sets the total to the last such amount and moves to
`buscando_total`. -/
def pasoTotalYDetalles (st : EstadoProc) (linea : List Palabra) (lineaTexto : String) :
    EstadoProc :=
  if esSubcadena "total" lineaTexto ∧ st.estado ≠ Estado.buscandoColumnas then
    match (montosEnLinea linea).getLast? with
    | some t => { st with total_factura := some t, estado := Estado.buscandoTotal }
    | none => pasoDetalles st linea lineaTexto
  else pasoDetalles st linea lineaTexto

/-- Lines 115-182: processing of one line.  In `buscando_columnas` the
detection block runs first and, when any column was found, consumes the
line (`continue`); otherwise the total/detail blocks follow (they are inert
while still in `buscando_columnas`). -/
def pasoLinea (st : EstadoProc) (linea : List Palabra) : EstadoProc :=
  let lineaTexto := textoLinea linea
  if st.estado = Estado.buscandoColumnas then
    let det := detectarEnLinea lineaTexto linea st.columnas
    let st1 := { st with columnas := det.1 }
    if det.2 then { st1 with estado := Estado.extrayendoDetalles }
    else pasoTotalYDetalles st1 linea lineaTexto
  else pasoTotalYDetalles st linea lineaTexto

/-- Line 189: `sum(d['Importe'] for d in detalles)` (left fold from 0). -/
def sumaImportes (detalles : List Detalle) : ℚ :=
  detalles.foldl (fun acc d => acc + d.importe) 0

/-- Lines 59-191 without the OCR call: filter, sort, group, run the line
loop, and return `(detalles, total_factura, total_calculado)`. -/
def reconocer_factura (datos : List PalabraRaw) : List Detalle × Option ℚ × ℚ :=
  let palabras := ordenarPalabras (palabrasFiltradas datos)
  let lineas := agruparLineas palabras
  let fin := lineas.foldl pasoLinea estadoInicial
  let total_calculado := if fin.detalles.isEmpty then (0 : ℚ) else sumaImportes fin.detalles
  (fin.detalles, fin.total_factura, total_calculado)

/-- Line 237: `es_coherente = (total_calculado == total_factura)`, exact
decimal equality. -/
def es_coherente (total_calculado total_factura : ℚ) : Bool :=
  total_calculado == total_factura

/-- The anchor dict left by a whole document. -/
def columnasDe (datos : List PalabraRaw) : MapaColumnas :=
  ((agruparLineas (ordenarPalabras (palabrasFiltradas datos))).foldl pasoLinea
    estadoInicial).columnas

/-- The fixed column order of the `MAPEO_COLUMNAS` dict literal. -/
def ordenColumnas : List Columna :=
  [Columna.cant, Columna.descripcion, Columna.punit, Columna.importe]

/-- Position of a column in the fixed order. -/
def indiceCol : Columna → Nat
  | Columna.cant => 0
  | Columna.descripcion => 1
  | Columna.punit => 2
  | Columna.importe => 3

/-- Modelled from the spec: the anchor value the specification predicts for
a column ("record that column's anchor as that word's left coordinate, but
only if the column has no anchor yet (first match wins)") — the left
coordinate of the word found for the first alias, in the column's
alias-list order, that matches the line. -/
def primerAnclaje (c : Columna) (lineaTexto : String) (linea : List Palabra) : Option Int :=
  (((MAPEO_COLUMNAS.find? (fun par => par.1 == c)).map (fun par => par.2)).getD []).findSome?
    (fun aliasCol =>
      if esSubcadena aliasCol lineaTexto then
        (linea.find? (fun p => esSubcadena aliasCol (pyLower p.text))).map (fun p => p.left)
      else none)

/-! ## Concrete example documents (used by witnesses and counterexamples) -/

/-- A header line holding two aliases of the `Cant` column, `"qty"` left of
`"cant"`. -/
def docEjC2 : List PalabraRaw :=
  [{ text := "qty", left := 50, top := 0, width := 10, height := 10, conf := 90 },
   { text := "cant", left := 100, top := 0, width := 10, height := 10, conf := 90 }]

/-- The single grouped line of `docEjC2`. -/
def lineaEjC2 : List Palabra :=
  [{ text := "qty", left := 50, top := 0, width := 10, height := 10 },
   { text := "cant", left := 100, top := 0, width := 10, height := 10 }]

/-- Header `Cant/Producto/Importe`, then a detail line whose quantity token
`"x"` does not parse. -/
def docEjC3a : List PalabraRaw :=
  [{ text := "Cant", left := 0, top := 0, width := 10, height := 10, conf := 90 },
   { text := "Producto", left := 100, top := 0, width := 10, height := 10, conf := 90 },
   { text := "Importe", left := 300, top := 0, width := 10, height := 10, conf := 90 },
   { text := "x", left := 0, top := 40, width := 10, height := 10, conf := 90 },
   { text := "Tornillo", left := 100, top := 40, width := 10, height := 10, conf := 90 },
   { text := "21,00", left := 300, top := 40, width := 10, height := 10, conf := 90 }]

/-- Same header, with quantity token `"0"`. -/
def docEjC3b : List PalabraRaw :=
  [{ text := "Cant", left := 0, top := 0, width := 10, height := 10, conf := 90 },
   { text := "Producto", left := 100, top := 0, width := 10, height := 10, conf := 90 },
   { text := "Importe", left := 300, top := 0, width := 10, height := 10, conf := 90 },
   { text := "0", left := 0, top := 40, width := 10, height := 10, conf := 90 },
   { text := "Tornillo", left := 100, top := 40, width := 10, height := 10, conf := 90 },
   { text := "21,00", left := 300, top := 40, width := 10, height := 10, conf := 90 }]

/-- Header, one detail line, a total line, then a second detail line. -/
def docEjC5 : List PalabraRaw :=
  [{ text := "Cant", left := 0, top := 0, width := 10, height := 10, conf := 90 },
   { text := "Producto", left := 100, top := 0, width := 10, height := 10, conf := 90 },
   { text := "Importe", left := 300, top := 0, width := 10, height := 10, conf := 90 },
   { text := "2", left := 0, top := 40, width := 10, height := 10, conf := 90 },
   { text := "Tornillo", left := 100, top := 40, width := 10, height := 10, conf := 90 },
   { text := "21,00", left := 300, top := 40, width := 10, height := 10, conf := 90 },
   { text := "Total", left := 100, top := 80, width := 10, height := 10, conf := 90 },
   { text := "21,00", left := 300, top := 80, width := 10, height := 10, conf := 90 },
   { text := "3", left := 0, top := 120, width := 10, height := 10, conf := 90 },
   { text := "Clavo", left := 100, top := 120, width := 10, height := 10, conf := 90 },
   { text := "10,00", left := 300, top := 120, width := 10, height := 10, conf := 90 }]

/-- The post-total detail line of `docEjC5`, as grouped. -/
def lineaPostTotal : List Palabra :=
  [{ text := "3", left := 0, top := 120, width := 10, height := 10 },
   { text := "Clavo", left := 100, top := 120, width := 10, height := 10 },
   { text := "10,00", left := 300, top := 120, width := 10, height := 10 }]

/-- The anchors detected in `docEjC5` (and `docEjC3a`/`docEjC3b`). -/
def colsEj : MapaColumnas :=
  [(Columna.cant, 0), (Columna.descripcion, 100), (Columna.importe, 300)]

/-- A total line `Total 21,00`. -/
def lineaTotalEj : List Palabra :=
  [{ text := "Total", left := 100, top := 80, width := 10, height := 10 },
   { text := "21,00", left := 300, top := 80, width := 10, height := 10 }]

/-- A mid-document state: extracting details, with anchors and an earlier
total of 25. -/
def stEjC4 : EstadoProc :=
  { detalles := [], total_factura := some (25 : ℚ),
    columnas := [(Columna.importe, 300)], estado := Estado.extrayendoDetalles }

/-- A state that has already consumed a total line. -/
def stEjC5 : EstadoProc :=
  { detalles := [{ cant := 2, descripcion := "Tornillo", punit := some (21 : ℚ),
                   importe := (21 : ℚ) }],
    total_factura := some (21 : ℚ), columnas := colsEj,
    estado := Estado.buscandoTotal }

/-- A state past the header, for the C2 witness. -/
def stEjC2 : EstadoProc :=
  { detalles := [], total_factura := none, columnas := [(Columna.cant, 50)],
    estado := Estado.extrayendoDetalles }

/-- Anchors for all four columns, for C8/C10 instances. -/
def colsEj4 : MapaColumnas :=
  [(Columna.cant, 0), (Columna.descripcion, 100), (Columna.punit, 200),
   (Columna.importe, 300)]

/-- Detail line whose `P.Unit` token `"1O,50"` (letter `O`) does not parse. -/
def lineaEjC10 : List Palabra :=
  [{ text := "2", left := 0, top := 40, width := 10, height := 10 },
   { text := "Tornillo", left := 100, top := 40, width := 10, height := 10 },
   { text := "1O,50", left := 200, top := 40, width := 10, height := 10 },
   { text := "21,00", left := 300, top := 40, width := 10, height := 10 }]

/-- Detail line with both an unparsable quantity token `"x"` and an
unparsable `P.Unit` token `"1O,50"`, but a valid amount and description. -/
def lineaEjC10mal : List Palabra :=
  [{ text := "x", left := 0, top := 40, width := 10, height := 10 },
   { text := "Tornillo", left := 100, top := 40, width := 10, height := 10 },
   { text := "1O,50", left := 200, top := 40, width := 10, height := 10 },
   { text := "21,00", left := 300, top := 40, width := 10, height := 10 }]

/-! ## Stable-sort lemmas -/

theorem perm_insertarOrd {α : Type} (le : α → α → Bool) (a : α) (l : List α) :
    List.Perm (insertarOrd le a l) (a :: l) := by
  induction l with
  | nil => simp [insertarOrd]
  | cons b bs ih =>
    simp only [insertarOrd]
    split
    · exact List.Perm.refl _
    · exact (List.Perm.cons b ih).trans (List.Perm.swap a b bs)

theorem perm_ordenarEstable {α : Type} (le : α → α → Bool) (l : List α) :
    List.Perm (ordenarEstable le l) l := by
  induction l with
  | nil => exact List.Perm.refl _
  | cons a as ih =>
    exact (perm_insertarOrd le a (ordenarEstable le as)).trans (List.Perm.cons a ih)

theorem mem_ordenarEstable {α : Type} (le : α → α → Bool) (l : List α) (x : α) :
    x ∈ ordenarEstable le l ↔ x ∈ l :=
  (perm_ordenarEstable le l).mem_iff

theorem pairwise_insertarOrd {α : Type} (le : α → α → Bool)
    (htrans : ∀ a b c, le a b = true → le b c = true → le a c = true)
    (htot : ∀ a b, le a b = true ∨ le b a = true)
    (a : α) (l : List α) (hl : l.Pairwise (fun x y => le x y = true)) :
    (insertarOrd le a l).Pairwise (fun x y => le x y = true) := by
  induction l with
  | nil => simp [insertarOrd]
  | cons b bs ih =>
    rcases List.pairwise_cons.mp hl with ⟨hb, hbs⟩
    simp only [insertarOrd]
    split
    · rename_i h
      refine List.pairwise_cons.mpr ⟨?_, hl⟩
      intro x hx
      rcases List.mem_cons.mp hx with rfl | hx'
      · exact h
      · exact htrans a b x h (hb x hx')
    · rename_i h
      have hba : le b a = true := (htot a b).resolve_left h
      refine List.pairwise_cons.mpr ⟨?_, ih hbs⟩
      intro x hx
      rcases List.mem_cons.mp ((perm_insertarOrd le a bs).mem_iff.mp hx) with rfl | hx'
      · exact hba
      · exact hb x hx'

theorem pairwise_ordenarEstable {α : Type} (le : α → α → Bool)
    (htrans : ∀ a b c, le a b = true → le b c = true → le a c = true)
    (htot : ∀ a b, le a b = true ∨ le b a = true) (l : List α) :
    (ordenarEstable le l).Pairwise (fun x y => le x y = true) := by
  induction l with
  | nil => simp [ordenarEstable]
  | cons a as ih => exact pairwise_insertarOrd le htrans htot a _ ih

theorem claveTopLeft_trans (a b c : Palabra) :
    claveTopLeft a b = true → claveTopLeft b c = true → claveTopLeft a c = true := by
  simp only [claveTopLeft, decide_eq_true_eq]
  omega

theorem claveTopLeft_total (a b : Palabra) :
    claveTopLeft a b = true ∨ claveTopLeft b a = true := by
  simp only [claveTopLeft, decide_eq_true_eq]
  omega

theorem clavePorLeft_trans (a b c : Palabra) :
    clavePorLeft a b = true → clavePorLeft b c = true → clavePorLeft a c = true := by
  simp only [clavePorLeft, decide_eq_true_eq]
  omega

theorem clavePorLeft_total (a b : Palabra) :
    clavePorLeft a b = true ∨ clavePorLeft b a = true := by
  simp only [clavePorLeft, decide_eq_true_eq]
  omega

/-! ## Line-grouping lemmas -/

theorem agrupar_eq_runs : ∀ (resto rev : List Palabra),
    agruparAux rev resto = (runsAux rev resto).map ordenarPorLeft := by
  intro resto
  induction resto with
  | nil => intro rev; rfl
  | cons p resto ih =>
    intro rev
    cases rev with
    | nil => exact ih [p]
    | cons prev rev' =>
      by_cases h20 : (p.top - prev.top).natAbs < 20
      · simp only [agruparAux, runsAux]
        rw [if_pos h20, if_pos h20]
        exact ih (p :: prev :: rev')
      · simp only [agruparAux, runsAux, List.map_cons]
        rw [if_neg h20, if_neg h20]
        rw [List.map_cons, ih [p]]
        rfl

theorem runs_flatten : ∀ (resto rev : List Palabra),
    (runsAux rev resto).flatten = rev.reverse ++ resto := by
  intro resto
  induction resto with
  | nil => intro rev; simp [runsAux]
  | cons p resto ih =>
    intro rev
    cases rev with
    | nil =>
      have h := ih [p]
      simp only [runsAux]
      rw [h]
      simp
    | cons prev rev' =>
      by_cases h20 : (p.top - prev.top).natAbs < 20
      · simp only [runsAux]
        rw [if_pos h20, ih (p :: prev :: rev')]
        simp
      · simp only [runsAux]
        rw [if_neg h20]
        simp only [List.flatten_cons]
        rw [ih [p]]
        simp

theorem runs_chain : ∀ (resto rev : List Palabra), rev ≠ [] →
    rev.Chain' (fun a b => (a.top - b.top).natAbs < 20) →
    ∀ r ∈ runsAux rev resto,
      r ≠ [] ∧ r.Chain' (fun a b => (b.top - a.top).natAbs < 20) := by
  intro resto
  induction resto with
  | nil =>
    intro rev hne hch r hr
    simp only [runsAux, List.mem_singleton] at hr
    subst hr
    refine ⟨by simpa using hne, ?_⟩
    rw [List.chain'_reverse]
    exact hch
  | cons p resto ih =>
    intro rev hne hch r hr
    cases rev with
    | nil => exact absurd rfl hne
    | cons prev rev' =>
      by_cases h20 : (p.top - prev.top).natAbs < 20
      · simp only [runsAux] at hr
        rw [if_pos h20] at hr
        exact ih (p :: prev :: rev') (List.cons_ne_nil p _)
          (List.chain'_cons.mpr ⟨h20, hch⟩) r hr
      · simp only [runsAux] at hr
        rw [if_neg h20] at hr
        rcases List.mem_cons.mp hr with rfl | hr'
        · refine ⟨by simp, ?_⟩
          rw [List.chain'_reverse]
          exact hch
        · exact ih [p] (List.cons_ne_nil p []) (List.chain'_singleton p) r hr'

theorem runs_head : ∀ (resto rev : List Palabra), rev ≠ [] →
    ∃ r rs, runsAux rev resto = r :: rs ∧ r.head? = rev.getLast? := by
  intro resto
  induction resto with
  | nil =>
    intro rev hne
    exact ⟨rev.reverse, [], rfl, List.head?_reverse rev⟩
  | cons p resto ih =>
    intro rev hne
    cases rev with
    | nil => exact absurd rfl hne
    | cons prev rev' =>
      by_cases h20 : (p.top - prev.top).natAbs < 20
      · obtain ⟨r, rs, heq, hh⟩ := ih (p :: prev :: rev') (List.cons_ne_nil _ _)
        refine ⟨r, rs, ?_, ?_⟩
        · show runsAux (prev :: rev') (p :: resto) = r :: rs
          simp only [runsAux]
          rw [if_pos h20]
          exact heq
        · rw [hh]
          exact List.getLast?_cons_cons
      · refine ⟨(prev :: rev').reverse, runsAux [p] resto, ?_, List.head?_reverse _⟩
        simp only [runsAux]
        rw [if_neg h20]

theorem runs_boundary : ∀ (resto rev : List Palabra), rev ≠ [] →
    (runsAux rev resto).Chain'
      (fun r r' => ∀ x ∈ r.getLast?, ∀ y ∈ r'.head?,
        20 ≤ (y.top - x.top).natAbs) := by
  intro resto
  induction resto with
  | nil =>
    intro rev hne
    exact List.chain'_singleton _
  | cons p resto ih =>
    intro rev hne
    cases rev with
    | nil => exact absurd rfl hne
    | cons prev rev' =>
      by_cases h20 : (p.top - prev.top).natAbs < 20
      · show List.Chain' _ (runsAux (prev :: rev') (p :: resto))
        simp only [runsAux]
        rw [if_pos h20]
        exact ih (p :: prev :: rev') (List.cons_ne_nil _ _)
      · show List.Chain' _ (runsAux (prev :: rev') (p :: resto))
        simp only [runsAux]
        rw [if_neg h20]
        obtain ⟨r, rs, heq, hh⟩ := runs_head resto [p] (List.cons_ne_nil _ _)
        rw [heq]
        refine List.chain'_cons'.mpr ⟨?_, ?_⟩
        · intro y hy x hx z hz
          have hy' : y = r := by
            simp only [List.head?_cons, Option.mem_def, Option.some.injEq] at hy
            exact hy.symm
          subst hy'
          have hx' : x = prev := by
            rw [Option.mem_def, List.getLast?_reverse, List.head?_cons] at hx
            exact (Option.some.inj hx).symm
          subst hx'
          have hz' : z = p := by
            rw [Option.mem_def, hh] at hz
            exact (Option.some.inj hz).symm
          subst hz'
          exact Nat.le_of_not_lt h20
        · rw [← heq]
          exact ih [p] (List.cons_ne_nil _ _)

theorem flatten_map_sort_perm : ∀ rs : List (List Palabra),
    List.Perm ((rs.map ordenarPorLeft).flatten) rs.flatten := by
  intro rs
  induction rs with
  | nil => exact List.Perm.refl _
  | cons r rs ih =>
    simp only [List.map_cons, List.flatten_cons]
    exact List.Perm.append (perm_ordenarEstable clavePorLeft r) ih

/-- The output shape of the line grouper on a `top`-sorted input: each line
sorted by `left`, lines cross-ordered by `top`, no word lost, and the lines
are exactly the `<20px` runs sorted by `left`. -/
theorem agrupar_propiedades (ps : List Palabra)
    (hsorted : ps.Pairwise (fun a b => a.top ≤ b.top)) :
    (∀ l ∈ agruparLineas ps, l.Pairwise (fun a b => a.left ≤ b.left)) ∧
    (agruparLineas ps).Pairwise (fun l1 l2 => ∀ a ∈ l1, ∀ b ∈ l2, a.top ≤ b.top) ∧
    List.Perm (agruparLineas ps).flatten ps ∧
    (∃ runs : List (List Palabra),
      runs.flatten = ps ∧
      agruparLineas ps = runs.map ordenarPorLeft ∧
      (∀ r ∈ runs, r ≠ [] ∧ r.Chain' (fun a b => (b.top - a.top).natAbs < 20)) ∧
      runs.Chain' (fun r r' => ∀ x ∈ r.getLast?, ∀ y ∈ r'.head?,
        20 ≤ (y.top - x.top).natAbs)) := by
  cases ps with
  | nil =>
    refine ⟨by simp [agruparLineas], by simp [agruparLineas], by simp [agruparLineas],
      [], rfl, by simp [agruparLineas], by simp, List.chain'_nil⟩
  | cons p resto =>
    have hflat : (runsAux [p] resto).flatten = p :: resto := by
      simpa using runs_flatten resto [p]
    have heq : agruparLineas (p :: resto) = (runsAux [p] resto).map ordenarPorLeft :=
      agrupar_eq_runs resto [p]
    have hchain := runs_chain resto [p] (List.cons_ne_nil p [])
      (List.chain'_singleton p)
    have hbound := runs_boundary resto [p] (List.cons_ne_nil p [])
    have hlsorted : ∀ l ∈ agruparLineas (p :: resto),
        l.Pairwise (fun a b => a.left ≤ b.left) := by
      intro l hl
      rw [heq] at hl
      rcases List.mem_map.mp hl with ⟨r, _, rfl⟩
      have hs := pairwise_ordenarEstable clavePorLeft clavePorLeft_trans
        clavePorLeft_total r
      exact hs.imp (fun h => by simpa [clavePorLeft, decide_eq_true_eq] using h)
    have hcross0 : (runsAux [p] resto).Pairwise
        (fun l1 l2 => ∀ a ∈ l1, ∀ b ∈ l2, a.top ≤ b.top) := by
      have hflatpw : ((runsAux [p] resto).flatten).Pairwise
          (fun a b => a.top ≤ b.top) := by
        rw [hflat]
        exact hsorted
      exact (List.pairwise_flatten.mp hflatpw).2
    have hcross : (agruparLineas (p :: resto)).Pairwise
        (fun l1 l2 => ∀ a ∈ l1, ∀ b ∈ l2, a.top ≤ b.top) := by
      rw [heq]
      refine List.Pairwise.map ordenarPorLeft ?_ hcross0
      intro r r' hrr a ha b hb
      exact hrr a ((mem_ordenarEstable clavePorLeft r a).mp ha)
        b ((mem_ordenarEstable clavePorLeft r' b).mp hb)
    have hpermf : List.Perm (agruparLineas (p :: resto)).flatten (p :: resto) := by
      rw [heq]
      exact (flatten_map_sort_perm (runsAux [p] resto)).trans (List.Perm.of_eq hflat)
    exact ⟨hlsorted, hcross, hpermf, runsAux [p] resto, hflat, heq, hchain, hbound⟩

/-! ## Sum lemma -/

theorem foldl_sumaImportes (l : List Detalle) (a : ℚ) :
    l.foldl (fun acc d => acc + d.importe) a = a + (l.map Detalle.importe).sum := by
  induction l generalizing a with
  | nil => simp
  | cons d ds ih => simp [ih, add_assoc]

theorem sumaImportes_eq_sum (l : List Detalle) :
    sumaImportes l = (l.map Detalle.importe).sum := by
  simpa using foldl_sumaImportes l 0

/-! ## State-machine helper lemmas -/

theorem pasoDetalles_estado (st : EstadoProc) (l : List Palabra) (t : String) :
    (pasoDetalles st l t).estado = st.estado := by
  unfold pasoDetalles
  split
  · split
    · rfl
    · split <;> rfl
  · rfl

theorem pasoDetalles_columnas (st : EstadoProc) (l : List Palabra) (t : String) :
    (pasoDetalles st l t).columnas = st.columnas := by
  unfold pasoDetalles
  split
  · split
    · rfl
    · split <;> rfl
  · rfl

theorem pasoDetalles_total (st : EstadoProc) (l : List Palabra) (t : String) :
    (pasoDetalles st l t).total_factura = st.total_factura := by
  unfold pasoDetalles
  split
  · split
    · rfl
    · split <;> rfl
  · rfl

theorem pasoDetalles_detalles (st : EstadoProc) (l : List Palabra) (t : String) :
    (pasoDetalles st l t).detalles = st.detalles ∨
      ∃ d, (pasoDetalles st l t).detalles = st.detalles ++ [d] ∧
        consolidarDetalle st.columnas l = some d ∧
        st.estado = Estado.extrayendoDetalles := by
  unfold pasoDetalles
  split
  · rename_i hg
    split
    · exact Or.inl rfl
    · split
      · rename_i d hd
        exact Or.inr ⟨d, rfl, hd, hg.1⟩
      · exact Or.inl rfl
  · exact Or.inl rfl

theorem pasoDetalles_no_extrayendo (st : EstadoProc) (l : List Palabra) (t : String)
    (h : st.estado ≠ Estado.extrayendoDetalles) : pasoDetalles st l t = st := by
  unfold pasoDetalles
  rw [if_neg (fun hc => h hc.1)]

theorem pasoTotal_columnas (st : EstadoProc) (l : List Palabra) (t : String) :
    (pasoTotalYDetalles st l t).columnas = st.columnas := by
  unfold pasoTotalYDetalles
  split
  · split
    · rfl
    · exact pasoDetalles_columnas st l t
  · exact pasoDetalles_columnas st l t

theorem pasoTotal_estado (st : EstadoProc) (l : List Palabra) (t : String) :
    (pasoTotalYDetalles st l t).estado = st.estado ∨
      (pasoTotalYDetalles st l t).estado = Estado.buscandoTotal := by
  unfold pasoTotalYDetalles
  split
  · split
    · exact Or.inr rfl
    · exact Or.inl (pasoDetalles_estado st l t)
  · exact Or.inl (pasoDetalles_estado st l t)

theorem pasoTotal_inerte (st : EstadoProc) (l : List Palabra) (t : String)
    (h : st.estado = Estado.buscandoColumnas) : pasoTotalYDetalles st l t = st := by
  unfold pasoTotalYDetalles
  rw [if_neg (fun hc => hc.2 h)]
  exact pasoDetalles_no_extrayendo st l t (by rw [h]; simp)

theorem pasoTotal_detalles (st : EstadoProc) (l : List Palabra) (t : String) :
    (pasoTotalYDetalles st l t).detalles = st.detalles ∨
      ∃ d, (pasoTotalYDetalles st l t).detalles = st.detalles ++ [d] ∧
        consolidarDetalle st.columnas l = some d ∧
        st.estado = Estado.extrayendoDetalles := by
  unfold pasoTotalYDetalles
  split
  · split
    · exact Or.inl rfl
    · exact pasoDetalles_detalles st l t
  · exact pasoDetalles_detalles st l t

theorem pasoLinea_estado_ne (st : EstadoProc) (l : List Palabra)
    (h : st.estado ≠ Estado.buscandoColumnas) :
    (pasoLinea st l).estado ≠ Estado.buscandoColumnas := by
  unfold pasoLinea
  rw [if_neg h]
  rcases pasoTotal_estado st l (textoLinea l) with he | he <;> rw [he]
  · exact h
  · simp

theorem pasoLinea_columnas_congeladas (st : EstadoProc) (l : List Palabra)
    (h : st.estado ≠ Estado.buscandoColumnas) :
    (pasoLinea st l).columnas = st.columnas := by
  unfold pasoLinea
  rw [if_neg h]
  exact pasoTotal_columnas st l (textoLinea l)

theorem foldl_columnas_congeladas (lineas : List (List Palabra)) (st : EstadoProc)
    (h : st.estado ≠ Estado.buscandoColumnas) :
    (lineas.foldl pasoLinea st).columnas = st.columnas := by
  induction lineas generalizing st with
  | nil => rfl
  | cons l ls ih =>
    simp only [List.foldl_cons]
    rw [ih (pasoLinea st l) (pasoLinea_estado_ne st l h)]
    exact pasoLinea_columnas_congeladas st l h

theorem foldl_estado_ne (lineas : List (List Palabra)) (st : EstadoProc)
    (h : st.estado ≠ Estado.buscandoColumnas) :
    (lineas.foldl pasoLinea st).estado ≠ Estado.buscandoColumnas := by
  induction lineas generalizing st with
  | nil => exact h
  | cons l ls ih => exact ih (pasoLinea st l) (pasoLinea_estado_ne st l h)

theorem pasoLinea_buscandoTotal (st : EstadoProc) (l : List Palabra)
    (h : st.estado = Estado.buscandoTotal) :
    (pasoLinea st l).detalles = st.detalles ∧
      (pasoLinea st l).estado = Estado.buscandoTotal := by
  unfold pasoLinea
  rw [if_neg (by rw [h]; simp)]
  constructor
  · unfold pasoTotalYDetalles
    split
    · split
      · rfl
      · exact congrArg EstadoProc.detalles
          (pasoDetalles_no_extrayendo st l (textoLinea l) (by rw [h]; simp))
    · exact congrArg EstadoProc.detalles
        (pasoDetalles_no_extrayendo st l (textoLinea l) (by rw [h]; simp))
  · rcases pasoTotal_estado st l (textoLinea l) with he | he <;> rw [he]
    exact h

/-- Shape of `pasoLinea` when a header line is found. -/
theorem pasoLinea_eq_buscando_found (st : EstadoProc) (l : List Palabra)
    (hb : st.estado = Estado.buscandoColumnas)
    (hdet : (detectarEnLinea (textoLinea l) l st.columnas).2 = true) :
    pasoLinea st l =
      { detalles := st.detalles, total_factura := st.total_factura,
        columnas := (detectarEnLinea (textoLinea l) l st.columnas).1,
        estado := Estado.extrayendoDetalles } := by
  simp [pasoLinea, hb, hdet]

/-- Shape of `pasoLinea` in `buscando_columnas` without a header match. -/
theorem pasoLinea_eq_buscando_notfound (st : EstadoProc) (l : List Palabra)
    (hb : st.estado = Estado.buscandoColumnas)
    (hdet : (detectarEnLinea (textoLinea l) l st.columnas).2 = false) :
    pasoLinea st l =
      pasoTotalYDetalles
        { st with columnas := (detectarEnLinea (textoLinea l) l st.columnas).1 }
        l (textoLinea l) := by
  simp [pasoLinea, hb, hdet]

/-- Shape of `pasoLinea` outside `buscando_columnas`. -/
theorem pasoLinea_eq_no_buscando (st : EstadoProc) (l : List Palabra)
    (hb : st.estado ≠ Estado.buscandoColumnas) :
    pasoLinea st l = pasoTotalYDetalles st l (textoLinea l) := by
  simp [pasoLinea, hb]

/-- When a detection pass reports `found_cols = False`, it wrote nothing. -/
theorem pasoAlias_false (t : String) (l : List Palabra) (c : Columna)
    (acc : MapaColumnas × Bool) (a : String)
    (h : (pasoAlias t l c acc a).2 = false) : pasoAlias t l c acc a = acc := by
  by_cases hc : esSubcadena a t = true
  · cases hp : l.find? (fun p => esSubcadena a (pyLower p.text)) with
    | some p =>
      exfalso
      unfold pasoAlias at h
      rw [if_pos hc, hp] at h
      simp at h
    | none =>
      unfold pasoAlias
      rw [if_pos hc, hp]
  · unfold pasoAlias
    rw [if_neg hc]

theorem foldl_pasoAlias_false (t : String) (l : List Palabra) (c : Columna) :
    ∀ (as : List String) (acc : MapaColumnas × Bool),
      ((as.foldl (pasoAlias t l c) acc).2 = false) →
      as.foldl (pasoAlias t l c) acc = acc := by
  intro as
  induction as with
  | nil => intro acc _; rfl
  | cons a as ih =>
    intro acc h
    simp only [List.foldl_cons] at h ⊢
    have h1 := ih (pasoAlias t l c acc a) h
    rw [h1] at h ⊢
    exact pasoAlias_false t l c acc a h

theorem foldl_pasoColumna_false (t : String) (l : List Palabra) :
    ∀ (ms : List (Columna × List String)) (acc : MapaColumnas × Bool),
      ((ms.foldl (pasoColumna t l) acc).2 = false) →
      ms.foldl (pasoColumna t l) acc = acc := by
  intro ms
  induction ms with
  | nil => intro acc _; rfl
  | cons m ms ih =>
    intro acc h
    simp only [List.foldl_cons] at h ⊢
    have h1 := ih (pasoColumna t l acc m) h
    rw [h1] at h ⊢
    exact foldl_pasoAlias_false t l m.1 m.2 acc h

theorem detectar_false (t : String) (l : List Palabra) (columnas : MapaColumnas)
    (h : (detectarEnLinea t l columnas).2 = false) :
    (detectarEnLinea t l columnas).1 = columnas := by
  unfold detectarEnLinea at *
  rw [foldl_pasoColumna_false t l MAPEO_COLUMNAS (columnas, false) h]

theorem pasoLinea_detalles (st : EstadoProc) (l : List Palabra) :
    (pasoLinea st l).detalles = st.detalles ∨
      ∃ d, (pasoLinea st l).detalles = st.detalles ++ [d] ∧
        ∃ cols, consolidarDetalle cols l = some d := by
  by_cases hb : st.estado = Estado.buscandoColumnas
  · by_cases hdet : (detectarEnLinea (textoLinea l) l st.columnas).2 = true
    · rw [pasoLinea_eq_buscando_found st l hb hdet]
      exact Or.inl rfl
    · rw [pasoLinea_eq_buscando_notfound st l hb (by simpa using hdet)]
      rcases pasoTotal_detalles
          { st with columnas := (detectarEnLinea (textoLinea l) l st.columnas).1 } l
          (textoLinea l) with h | ⟨d, hd, hc, _⟩
      · exact Or.inl h
      · exact Or.inr ⟨d, hd, _, hc⟩
  · rw [pasoLinea_eq_no_buscando st l hb]
    rcases pasoTotal_detalles st l (textoLinea l) with h | ⟨d, hd, hc, _⟩
    · exact Or.inl h
    · exact Or.inr ⟨d, hd, st.columnas, hc⟩

theorem foldl_detalles_provenance (lineas : List (List Palabra)) (st : EstadoProc)
    (d : Detalle) (h : d ∈ (lineas.foldl pasoLinea st).detalles) :
    d ∈ st.detalles ∨ ∃ cols linea, consolidarDetalle cols linea = some d := by
  induction lineas generalizing st with
  | nil => exact Or.inl h
  | cons l ls ih =>
    simp only [List.foldl_cons] at h
    rcases ih (pasoLinea st l) h with h1 | h1
    · rcases pasoLinea_detalles st l with h2 | ⟨d', hd', cols, hc⟩
      · rw [h2] at h1
        exact Or.inl h1
      · rw [hd'] at h1
        rcases List.mem_append.mp h1 with h3 | h3
        · exact Or.inl h3
        · rcases List.mem_singleton.mp h3 with rfl
          exact Or.inr ⟨cols, l, hc⟩
    · exact Or.inr h1

/-! ## Consolidation lemmas -/

theorem consolidarDetalle_ok (cols : MapaColumnas) (linea : List Palabra)
    (cantStr punitStr importeStr : Option String)
    (hc : primerTexto cols linea Columna.cant = Except.ok cantStr)
    (hp : primerTexto cols linea Columna.punit = Except.ok punitStr)
    (hi : primerTexto cols linea Columna.importe = Except.ok importeStr) :
    consolidarDetalle cols linea =
      consolidarCampos cantStr punitStr importeStr
        (unirConEspacios (textosAsignados cols linea Columna.descripcion)) := by
  unfold consolidarDetalle
  rw [hc, hp, hi]

theorem consolidarDetalle_error1 (cols : MapaColumnas) (linea : List Palabra) (e : Unit)
    (hc : primerTexto cols linea Columna.cant = Except.error e) :
    consolidarDetalle cols linea = none := by
  unfold consolidarDetalle
  rw [hc]

theorem consolidarDetalle_error2 (cols : MapaColumnas) (linea : List Palabra)
    (cantStr : Option String) (e : Unit)
    (hc : primerTexto cols linea Columna.cant = Except.ok cantStr)
    (hp : primerTexto cols linea Columna.punit = Except.error e) :
    consolidarDetalle cols linea = none := by
  unfold consolidarDetalle
  rw [hc, hp]

theorem consolidarDetalle_error3 (cols : MapaColumnas) (linea : List Palabra)
    (cantStr punitStr : Option String) (e : Unit)
    (hc : primerTexto cols linea Columna.cant = Except.ok cantStr)
    (hp : primerTexto cols linea Columna.punit = Except.ok punitStr)
    (hi : primerTexto cols linea Columna.importe = Except.error e) :
    consolidarDetalle cols linea = none := by
  unfold consolidarDetalle
  rw [hc, hp, hi]

theorem cantidadDe_spec (cs : Option String) (n : Int) (h : cantidadDe cs = some n) :
    (esVerdadero cs = false ∧ n = 1) ∨
      (∃ s, cs = some s ∧ pyEnteroDeFloat (comasAPuntosStr s) = some n) := by
  unfold cantidadDe at h
  by_cases hv : esVerdadero cs = true
  · rw [if_pos hv] at h
    cases cs with
    | none => simp [esVerdadero] at hv
    | some s => exact Or.inr ⟨s, rfl, h⟩
  · rw [if_neg hv] at h
    exact Or.inl ⟨by simpa using hv, (Option.some.inj h).symm⟩

theorem consolidarCampos_spec (cantStr punitStr importeStr : Option String)
    (desc : String) (d : Detalle)
    (h : consolidarCampos cantStr punitStr importeStr desc = some d) :
    ∃ istr q n, importeStr = some istr ∧ normalizar_monto istr = some q ∧
      cantidadDe cantStr = some n ∧
      d = { cant := n, descripcion := desc, punit := punitDe punitStr q,
            importe := q } := by
  unfold consolidarCampos at h
  by_cases hg : esVerdadero importeStr = true ∧ desc ≠ ""
  · rw [if_pos hg] at h
    cases importeStr with
    | none => exact Option.noConfusion (show (none : Option Detalle) = some d from h)
    | some istr =>
      replace h : camposConImporte cantStr punitStr istr desc = some d := h
      unfold camposConImporte at h
      generalize hq : normalizar_monto istr = r at h
      cases r with
      | none => exact Option.noConfusion (show (none : Option Detalle) = some d from h)
      | some q =>
        replace h : (match cantidadDe cantStr with
          | some n =>
            some { cant := n, descripcion := desc, punit := punitDe punitStr q,
                   importe := q }
          | none => (none : Option Detalle)) = some d := h
        generalize hn : cantidadDe cantStr = rn at h
        cases rn with
        | none => exact Option.noConfusion (show (none : Option Detalle) = some d from h)
        | some n => exact ⟨istr, q, n, rfl, hq, rfl, (Option.some.inj h).symm⟩
  · rw [if_neg hg] at h
    exact Option.noConfusion h

theorem consolidarCampos_some (cantStr punitStr : Option String) (istr : String)
    (desc : String) (q : ℚ) (n : Int) (hi2 : istr ≠ "") (hd : desc ≠ "")
    (hq : normalizar_monto istr = some q) (hcant : cantidadDe cantStr = some n) :
    consolidarCampos cantStr punitStr (some istr) desc =
      some { cant := n, descripcion := desc, punit := punitDe punitStr q,
             importe := q } := by
  unfold consolidarCampos
  rw [if_pos ⟨by simp [esVerdadero, hi2], hd⟩]
  show camposConImporte cantStr punitStr istr desc = _
  unfold camposConImporte
  rw [hq, hcant]

theorem punitDe_presente (s : String) (q : ℚ) (hs : s ≠ "") :
    punitDe (some s) q = normalizar_monto s := by
  unfold punitDe
  rw [if_pos (by simp [esVerdadero, hs])]

theorem punitDe_ausente (ps : Option String) (q : ℚ) (hv : esVerdadero ps = false) :
    punitDe ps q = some q := by
  unfold punitDe
  rw [if_neg (by simp [hv])]

/-- A `"total"` line with at least one parseable amount, seen outside
`buscando_columnas`, overwrites the total with the last amount and moves to
`buscando_total`. -/
theorem pasoLinea_total_hit (st : EstadoProc) (linea : List Palabra)
    (h1 : st.estado ≠ Estado.buscandoColumnas)
    (h2 : esSubcadena "total" (textoLinea linea) = true)
    (h3 : montosEnLinea linea ≠ []) :
    pasoLinea st linea =
      { detalles := st.detalles, total_factura := (montosEnLinea linea).getLast?,
        columnas := st.columnas, estado := Estado.buscandoTotal } := by
  rw [pasoLinea_eq_no_buscando st linea h1]
  unfold pasoTotalYDetalles
  rw [if_pos ⟨h2, h1⟩]
  cases hm : (montosEnLinea linea).getLast? with
  | none => exact absurd (List.getLast?_eq_none_iff.mp hm) h3
  | some t => rfl

/-- A line that is not a total line with a parseable amount leaves the
total untouched (outside `buscando_columnas`). -/
theorem pasoLinea_total_sin (st : EstadoProc) (linea : List Palabra)
    (h1 : st.estado ≠ Estado.buscandoColumnas)
    (hl : esSubcadena "total" (textoLinea linea) = true → montosEnLinea linea = []) :
    (pasoLinea st linea).total_factura = st.total_factura := by
  rw [pasoLinea_eq_no_buscando st linea h1]
  unfold pasoTotalYDetalles
  by_cases h2 : esSubcadena "total" (textoLinea linea) = true
  · rw [if_pos ⟨h2, h1⟩, hl h2]
    exact pasoDetalles_total st linea (textoLinea linea)
  · rw [if_neg (fun hc => h2 hc.1)]
    exact pasoDetalles_total st linea (textoLinea linea)

theorem foldl_total_sin (lineas : List (List Palabra)) (st : EstadoProc)
    (h1 : st.estado ≠ Estado.buscandoColumnas)
    (hl : ∀ l ∈ lineas, esSubcadena "total" (textoLinea l) = true → montosEnLinea l = []) :
    (lineas.foldl pasoLinea st).total_factura = st.total_factura := by
  induction lineas generalizing st with
  | nil => rfl
  | cons l ls ih =>
    simp only [List.foldl_cons]
    rw [ih (pasoLinea st l) (pasoLinea_estado_ne st l h1)
      (fun l' hl' => hl l' (List.mem_cons_of_mem l hl'))]
    exact pasoLinea_total_sin st l h1 (hl l (List.mem_cons_self l ls))

/-! ## Anchor-dict key order -/

theorem tieneClave_eq_keys (m : MapaColumnas) (k : Columna) :
    tieneClave m k = (m.map Prod.fst).any (fun x => decide (x = k)) := by
  induction m with
  | nil => rfl
  | cons p ps ih =>
    show (decide (p.1 = k) || tieneClave ps k) =
      (decide (p.1 = k) || (ps.map Prod.fst).any (fun x => decide (x = k)))
    rw [ih]

theorem keys_ponerClave (m : MapaColumnas) (k : Columna) (v : Int) :
    (ponerClave m k v).map Prod.fst =
      if tieneClave m k then m.map Prod.fst else m.map Prod.fst ++ [k] := by
  unfold ponerClave
  split
  · rename_i h
    rw [List.map_map]
    refine List.map_congr_left ?_
    intro par _
    by_cases hb : par.1 = k
    · simp only [Function.comp_apply, if_pos hb]
      exact hb.symm
    · simp only [Function.comp_apply, if_neg hb]
  · simp

theorem pasoAlias_keys (t : String) (l : List Palabra) (c : Columna)
    (acc : MapaColumnas × Bool) (a : String) :
    (pasoAlias t l c acc a).1.map Prod.fst = acc.1.map Prod.fst ∨
    ((pasoAlias t l c acc a).1.map Prod.fst = acc.1.map Prod.fst ++ [c] ∧
      tieneClave acc.1 c = false) := by
  unfold pasoAlias
  split
  · split
    · by_cases ht : tieneClave acc.1 c
      · exact Or.inl (by rw [keys_ponerClave, if_pos ht])
      · refine Or.inr ⟨by rw [keys_ponerClave, if_neg ht], by simpa using ht⟩
    · exact Or.inl rfl
  · exact Or.inl rfl

theorem foldl_pasoAlias_keys (t : String) (l : List Palabra) (c : Columna) :
    ∀ (as : List String) (acc : MapaColumnas × Bool),
      (as.foldl (pasoAlias t l c) acc).1.map Prod.fst = acc.1.map Prod.fst ∨
      ((as.foldl (pasoAlias t l c) acc).1.map Prod.fst = acc.1.map Prod.fst ++ [c] ∧
        tieneClave acc.1 c = false) := by
  intro as
  induction as with
  | nil => intro acc; exact Or.inl rfl
  | cons a as ih =>
    intro acc
    simp only [List.foldl_cons]
    have hT : ∀ (m m' : MapaColumnas), m.map Prod.fst = m'.map Prod.fst →
        tieneClave m c = tieneClave m' c := by
      intro m m' hm
      rw [tieneClave_eq_keys, tieneClave_eq_keys, hm]
    rcases pasoAlias_keys t l c acc a with h1 | ⟨h1, hf1⟩
    · rcases ih (pasoAlias t l c acc a) with h2 | ⟨h2, hf2⟩
      · exact Or.inl (h2.trans h1)
      · refine Or.inr ⟨by rw [h2, h1], ?_⟩
        rw [← hT _ _ h1]
        exact hf2
    · rcases ih (pasoAlias t l c acc a) with h2 | ⟨h2, hf2⟩
      · exact Or.inr ⟨by rw [h2, h1], hf1⟩
      · exfalso
        have : tieneClave (pasoAlias t l c acc a).1 c = true := by
          rw [tieneClave_eq_keys, h1]
          simp
        rw [this] at hf2
        exact Bool.noConfusion hf2

theorem pasoColumna_keys (t : String) (l : List Palabra)
    (acc : MapaColumnas × Bool) (par : Columna × List String) :
    (pasoColumna t l acc par).1.map Prod.fst = acc.1.map Prod.fst ∨
    ((pasoColumna t l acc par).1.map Prod.fst = acc.1.map Prod.fst ++ [par.1] ∧
      tieneClave acc.1 par.1 = false) :=
  foldl_pasoAlias_keys t l par.1 par.2 acc

theorem detectar_desde_vacio (t : String) (l : List Palabra) :
    List.Sublist (((detectarEnLinea t l []).1).map Prod.fst) ordenColumnas := by
  unfold detectarEnLinea MAPEO_COLUMNAS
  simp only [List.foldl_cons, List.foldl_nil]
  rcases pasoColumna_keys t l ([], false)
      (Columna.cant, ["cant", "cantidad", "qty"]) with h1 | ⟨h1, -⟩ <;>
    rcases pasoColumna_keys t l _
      (Columna.descripcion,
        ["descripción", "descripcion", "producto", "servicio", "concepto"]) with
      h2 | ⟨h2, -⟩ <;>
    rcases pasoColumna_keys t l _
      (Columna.punit, ["p.unit", "unitario", "precio", "p/u"]) with h3 | ⟨h3, -⟩ <;>
    rcases pasoColumna_keys t l _
      (Columna.importe, ["importe", "total", "subtotal", "valor"]) with h4 | ⟨h4, -⟩ <;>
    rw [h4, h3, h2, h1] <;> decide

theorem invariante_columnas (lineas : List (List Palabra)) (st : EstadoProc)
    (h1 : st.estado = Estado.buscandoColumnas → st.columnas = [])
    (h2 : List.Sublist (st.columnas.map Prod.fst) ordenColumnas) :
    List.Sublist (((lineas.foldl pasoLinea st).columnas).map Prod.fst) ordenColumnas := by
  induction lineas generalizing st with
  | nil => exact h2
  | cons l ls ih =>
    simp only [List.foldl_cons]
    by_cases hb : st.estado = Estado.buscandoColumnas
    · by_cases hdet : (detectarEnLinea (textoLinea l) l st.columnas).2 = true
      · rw [pasoLinea_eq_buscando_found st l hb hdet]
        refine ih _ (fun hcontra => Estado.noConfusion hcontra) ?_
        show List.Sublist (((detectarEnLinea (textoLinea l) l st.columnas).1).map
          Prod.fst) ordenColumnas
        rw [h1 hb]
        exact detectar_desde_vacio (textoLinea l) l
      · have hdf : (detectarEnLinea (textoLinea l) l st.columnas).2 = false := by
          simpa using hdet
        rw [pasoLinea_eq_buscando_notfound st l hb hdf]
        rw [pasoTotal_inerte _ l (textoLinea l) (by exact hb)]
        refine ih _ (fun _ => ?_) ?_
        · show (detectarEnLinea (textoLinea l) l st.columnas).1 = []
          rw [detectar_false _ _ _ hdf]
          exact h1 hb
        · show List.Sublist (((detectarEnLinea (textoLinea l) l st.columnas).1).map
            Prod.fst) ordenColumnas
          rw [detectar_false _ _ _ hdf]
          exact h2
    · refine ih _ (fun hcontra => absurd hcontra (pasoLinea_estado_ne st l hb)) ?_
      rw [pasoLinea_columnas_congeladas st l hb]
      exact h2

theorem columnasDe_sublist (datos : List PalabraRaw) :
    List.Sublist ((columnasDe datos).map Prod.fst) ordenColumnas :=
  invariante_columnas _ estadoInicial (fun _ => rfl) (by simp [estadoInicial])

/-! ## Nearest-column lemmas -/

theorem minimaAux_spec (izq : Int) :
    ∀ (l : MapaColumnas) (mejor : Columna) (mejorDist : Nat),
      (minimaAux izq mejor mejorDist l = mejor ∧
        ∀ q ∈ l, mejorDist ≤ distanciaA izq q) ∨
      (∃ l1 par l2, l = l1 ++ par :: l2 ∧
        minimaAux izq mejor mejorDist l = par.1 ∧
        distanciaA izq par < mejorDist ∧
        (∀ q ∈ l, distanciaA izq par ≤ distanciaA izq q) ∧
        (∀ q ∈ l1, distanciaA izq par < distanciaA izq q)) := by
  intro l
  induction l with
  | nil => intro mejor mejorDist; exact Or.inl ⟨rfl, by simp⟩
  | cons par0 resto ih =>
    intro mejor mejorDist
    by_cases hlt : distanciaA izq par0 < mejorDist
    · have hstep : minimaAux izq mejor mejorDist (par0 :: resto) =
          minimaAux izq par0.1 (distanciaA izq par0) resto := by
        simp only [minimaAux]
        rw [if_pos hlt]
      rcases ih par0.1 (distanciaA izq par0) with ⟨he, hall⟩ | ⟨l1, par, l2, hdec, he, hd, hall, hstrict⟩
      · refine Or.inr ⟨[], par0, resto, rfl, by rw [hstep, he], hlt, ?_, by simp⟩
        intro q hq
        rcases List.mem_cons.mp hq with rfl | hq'
        · exact le_refl _
        · exact hall q hq'
      · refine Or.inr ⟨par0 :: l1, par, l2, by simp [hdec], by rw [hstep, he],
          lt_trans hd hlt, ?_, ?_⟩
        · intro q hq
          rcases List.mem_cons.mp hq with rfl | hq'
          · exact le_of_lt hd
          · exact hall q (by rw [hdec] at hq' ⊢; exact hq')
        · intro q hq
          rcases List.mem_cons.mp hq with rfl | hq'
          · exact hd
          · exact hstrict q hq'
    · have hge : mejorDist ≤ distanciaA izq par0 := Nat.le_of_not_lt hlt
      have hstep : minimaAux izq mejor mejorDist (par0 :: resto) =
          minimaAux izq mejor mejorDist resto := by
        simp only [minimaAux]
        rw [if_neg hlt]
      rcases ih mejor mejorDist with ⟨he, hall⟩ | ⟨l1, par, l2, hdec, he, hd, hall, hstrict⟩
      · refine Or.inl ⟨by rw [hstep, he], ?_⟩
        intro q hq
        rcases List.mem_cons.mp hq with rfl | hq'
        · exact hge
        · exact hall q hq'
      · refine Or.inr ⟨par0 :: l1, par, l2, by simp [hdec], by rw [hstep, he], hd, ?_, ?_⟩
        · intro q hq
          rcases List.mem_cons.mp hq with rfl | hq'
          · exact le_of_lt (lt_of_lt_of_le hd hge)
          · exact hall q (by rw [hdec] at hq' ⊢; exact hq')
        · intro q hq
          rcases List.mem_cons.mp hq with rfl | hq'
          · exact lt_of_lt_of_le hd hge
          · exact hstrict q hq'

theorem columnaCercana_spec (izq : Int) (par0 : Columna × Int) (resto : MapaColumnas) :
    ∃ l1 par l2, par0 :: resto = l1 ++ par :: l2 ∧
      columnaCercana izq (par0 :: resto) = some par.1 ∧
      (∀ q ∈ par0 :: resto, distanciaA izq par ≤ distanciaA izq q) ∧
      (∀ q ∈ l1, distanciaA izq par < distanciaA izq q) := by
  rcases minimaAux_spec izq resto par0.1 (distanciaA izq par0) with
    ⟨he, hall⟩ | ⟨l1, par, l2, hdec, he, hd, hall, hstrict⟩
  · refine ⟨[], par0, resto, rfl, ?_, ?_, by simp⟩
    · show some (minimaAux izq par0.1 (distanciaA izq par0) resto) = some par0.1
      rw [he]
    · intro q hq
      rcases List.mem_cons.mp hq with rfl | hq'
      · exact le_refl _
      · exact hall q hq'
  · refine ⟨par0 :: l1, par, l2, by simp [hdec], ?_, ?_, ?_⟩
    · show some (minimaAux izq par0.1 (distanciaA izq par0) resto) = some par.1
      rw [he]
    · intro q hq
      rcases List.mem_cons.mp hq with rfl | hq'
      · exact le_of_lt hd
      · exact hall q (by rw [hdec] at hq' ⊢; exact hq')
    · intro q hq
      rcases List.mem_cons.mp hq with rfl | hq'
      · exact hd
      · exact hstrict q hq'

theorem keys_pairwise_indice (cols : MapaColumnas)
    (h : List.Sublist (cols.map Prod.fst) ordenColumnas) :
    cols.Pairwise (fun p q => indiceCol p.1 < indiceCol q.1) := by
  have horden : ordenColumnas.Pairwise (fun a b => indiceCol a < indiceCol b) := by decide
  have h2 : List.Pairwise (fun a b => indiceCol a < indiceCol b) (cols.map Prod.fst) :=
    horden.sublist h
  exact h2.of_map Prod.fst (fun a b hab => hab)

section ClaimTheorems

attribute [local semireducible] Rat.add Rat.mul Rat.inv Rat.sub Rat.ofScientific

set_option maxRecDepth 100000

/-- **C1.** The literal `AmountNormalizer` cases: `"1.234,56" ↦ 1234.56`,
`"78,90" ↦ 78.90`, `"1.234.567,89" ↦ 1234567.89`, and `"78.90" ↦ 7890`
(the sole `.` is stripped unconditionally, scaling the value by a power of
ten). -/
theorem claim_C1_normalizar_monto_literales :
    normalizar_monto "1.234,56" = some (1234.56 : ℚ) ∧
    normalizar_monto "78,90" = some (78.90 : ℚ) ∧
    normalizar_monto "1.234.567,89" = some (1234567.89 : ℚ) ∧
    normalizar_monto "78.90" = some (7890 : ℚ) := by
  refine ⟨by decide, by decide, by decide, by decide⟩

/-- **C6.** The coherence verdict is `true` exactly when the computed sum —
the exact-decimal (left-fold, order-independent) sum of the accepted line
items' amounts, `0` when there are none — equals the extracted total, with
no tolerance. -/
theorem claim_C6_coherencia_exacta :
    ∀ (datos : List PalabraRaw) (t : ℚ),
      (reconocer_factura datos).2.2 = sumaImportes (reconocer_factura datos).1 ∧
      sumaImportes ([] : List Detalle) = 0 ∧
      (∀ dets : List Detalle, sumaImportes dets = (dets.map Detalle.importe).sum) ∧
      (es_coherente (reconocer_factura datos).2.2 t = true ↔
        sumaImportes (reconocer_factura datos).1 = t) := by
  intro datos t
  have hif : ∀ dets : List Detalle,
      (if dets.isEmpty then (0 : ℚ) else sumaImportes dets) = sumaImportes dets := by
    intro dets
    cases dets <;> simp [sumaImportes]
  have h1 : (reconocer_factura datos).2.2 = sumaImportes (reconocer_factura datos).1 := by
    simp only [reconocer_factura]
    exact hif _
  refine ⟨h1, rfl, sumaImportes_eq_sum, ?_⟩
  rw [h1]
  simp [es_coherente]

/-- **C9.** A recognized word reaches the downstream pipeline iff its
stripped text is non-empty and its confidence is strictly above 60; words
of confidence 55 or exactly 60 are dropped. -/
theorem claim_C9_filtro_confianza :
    (∀ (datos : List PalabraRaw) (p : Palabra),
      p ∈ palabrasFiltradas datos ↔
        ∃ d ∈ datos, recortar d.text ≠ "" ∧ d.conf > 60 ∧
          p = { text := recortar d.text, left := d.left, top := d.top,
                width := d.width, height := d.height }) ∧
    palabrasFiltradas
      [{ text := "hola", left := 0, top := 0, width := 1, height := 1, conf := 55 }] = [] ∧
    palabrasFiltradas
      [{ text := "hola", left := 0, top := 0, width := 1, height := 1, conf := 60 }] = [] := by
  refine ⟨?_, by decide, by decide⟩
  intro datos p
  simp only [palabrasFiltradas, List.mem_filterMap]
  constructor
  · rintro ⟨d, hd, hsome⟩
    by_cases h : recortar d.text ≠ "" ∧ d.conf > 60
    · refine ⟨d, hd, h.1, h.2, ?_⟩
      simp only [if_pos h] at hsome
      exact (Option.some.inj hsome).symm
    · simp only [if_neg h] at hsome
      exact absurd hsome (Option.noConfusion)
  · rintro ⟨d, hd, h1, h2, rfl⟩
    exact ⟨d, hd, by simp [if_pos (And.intro h1 h2)]⟩

/-- **C2 (counterexample).** In the single header line `qty cant`, the
spec-predicted first-match anchor for `Cant` is the word `"cant"` at left
100, but the code's final anchor is 50: the later alias `"qty"` overwrote
the anchor already written by the alias `"cant"`. -/
theorem claim_C2_counterexample :
    columnasDe docEjC2 = [(Columna.cant, 50)] ∧
    primerAnclaje Columna.cant (textoLinea lineaEjC2) lineaEjC2 = some 100 :=
  ⟨by decide, by decide⟩

/-- **C2 (amended).** Anchors are written only while the state is
`buscando_columnas`, and any line that changes the anchor dict transitions
the state to `extrayendo_detalles`, so anchors never change on later lines;
but within the single header line a later alias of the same column can
overwrite an earlier anchor (the first-match-wins reading fails, as the
concrete `qty cant` line shows). -/
theorem claim_C2_amended :
    (∀ (st : EstadoProc) (lineas : List (List Palabra)),
      st.estado ≠ Estado.buscandoColumnas →
      (lineas.foldl pasoLinea st).columnas = st.columnas) ∧
    (∀ (st : EstadoProc) (linea : List Palabra),
      st.estado = Estado.buscandoColumnas →
      (pasoLinea st linea).columnas ≠ st.columnas →
      (pasoLinea st linea).estado = Estado.extrayendoDetalles) ∧
    (columnasDe docEjC2 = [(Columna.cant, 50)] ∧
      (detectarEnLinea (textoLinea lineaEjC2) lineaEjC2 []).1 ≠
        [(Columna.cant, 100)] ∧
      ponerClave (ponerClave [] Columna.cant 100) Columna.cant 50 =
        [(Columna.cant, 50)]) := by
  refine ⟨?_, ?_, by decide, by decide, by decide⟩
  · intro st lineas h
    exact foldl_columnas_congeladas lineas st h
  · intro st linea hb hne
    by_cases hdet : (detectarEnLinea (textoLinea linea) linea st.columnas).2 = true
    · rw [pasoLinea_eq_buscando_found st linea hb hdet]
    · exfalso
      apply hne
      have hdf : (detectarEnLinea (textoLinea linea) linea st.columnas).2 = false := by
        simpa using hdet
      rw [pasoLinea_eq_buscando_notfound st linea hb hdf, pasoTotal_columnas]
      exact detectar_false _ _ _ hdf

/-- **C2 (witness).** The freeze statement applied to a state past the
header. -/
theorem claim_C2_witness :
    (([[{ text := "2", left := 0, top := 40, width := 10, height := 10 }]].foldl
      pasoLinea stEjC2).columnas = stEjC2.columnas) ∧
    (pasoLinea { detalles := [], total_factura := none, columnas := [],
                 estado := Estado.buscandoColumnas } lineaEjC2).estado =
      Estado.extrayendoDetalles :=
  ⟨claim_C2_amended.1 stEjC2 _ (by decide),
   claim_C2_amended.2.1 _ lineaEjC2 (by decide) (by decide)⟩

/-- **C3 (counterexample).** In `docEjC3a` the detail line has valid
description `"Tornillo"` and valid amount `"21,00"`, but its quantity token
`"x"` is unparsable: the claim says the line is emitted with quantity 1,
yet the code discards it (`ValueError` caught, empty result).  In
`docEjC3b` the quantity token `"0"` yields an emitted item with quantity 0,
refuting `quantity ≥ 1`. -/
theorem claim_C3_counterexample :
    (reconocer_factura docEjC3a).1 = [] ∧
    normalizar_monto "21,00" = some (21 : ℚ) ∧
    (reconocer_factura docEjC3b).1 =
      [{ cant := 0, descripcion := "Tornillo", punit := some (21 : ℚ),
         importe := (21 : ℚ) }] :=
  ⟨by decide, by decide, by decide⟩

/-- **C3 (amended).** For every emitted LineItem the quantity is the
truncation of the comma-normalized first `Cant` text when that text is
present and non-empty (any integer, 0 and negatives included), and 1
exactly when the `Cant` slot yields no usable text; a line whose `Cant`
text does not parse — or whose anchored `Cant` slot is empty — is
discarded, never defaulted.  Every item of a document's result comes from
such a consolidation. -/
theorem claim_C3_amended :
    (∀ (cols : MapaColumnas) (linea : List Palabra) (d : Detalle),
      consolidarDetalle cols linea = some d →
      ∃ cs, primerTexto cols linea Columna.cant = Except.ok cs ∧
        ((esVerdadero cs = false ∧ d.cant = 1) ∨
         (∃ s, cs = some s ∧ pyEnteroDeFloat (comasAPuntosStr s) = some d.cant))) ∧
    (∀ (datos : List PalabraRaw) (d : Detalle),
      d ∈ (reconocer_factura datos).1 →
      ∃ cols linea, consolidarDetalle cols linea = some d) := by
  constructor
  · intro cols linea d h
    cases hc : primerTexto cols linea Columna.cant with
    | error e =>
      rw [consolidarDetalle_error1 cols linea e hc] at h
      exact Option.noConfusion h
    | ok cs =>
      cases hp : primerTexto cols linea Columna.punit with
      | error e =>
        rw [consolidarDetalle_error2 cols linea cs e hc hp] at h
        exact Option.noConfusion h
      | ok ps =>
        cases hi : primerTexto cols linea Columna.importe with
        | error e =>
          rw [consolidarDetalle_error3 cols linea cs ps e hc hp hi] at h
          exact Option.noConfusion h
        | ok istr? =>
          rw [consolidarDetalle_ok cols linea cs ps istr? hc hp hi] at h
          rcases consolidarCampos_spec cs ps istr? _ d h with ⟨istr, q, n, his, hq, hn, rfl⟩
          refine ⟨cs, rfl, ?_⟩
          rcases cantidadDe_spec cs n hn with ⟨hf, rfl⟩ | ⟨s, rfl, hpe⟩
          · exact Or.inl ⟨hf, rfl⟩
          · exact Or.inr ⟨s, rfl, hpe⟩
  · intro datos d h
    have h' : d ∈ ((agruparLineas (ordenarPalabras (palabrasFiltradas datos))).foldl
        pasoLinea estadoInicial).detalles := h
    rcases foldl_detalles_provenance _ _ _ h' with h0 | h0
    · simp [estadoInicial] at h0
    · exact h0

/-- **C3 (witness).** The characterization applied to the consolidation of
a concrete line with quantity token `"2"`. -/
theorem claim_C3_witness :
    ∃ cs, primerTexto colsEj
        [{ text := "2", left := 0, top := 40, width := 10, height := 10 },
         { text := "Tornillo", left := 100, top := 40, width := 10, height := 10 },
         { text := "21,00", left := 300, top := 40, width := 10, height := 10 }]
        Columna.cant = Except.ok cs ∧
      ((esVerdadero cs = false ∧
        (2 : Int) = 1) ∨
       (∃ s, cs = some s ∧ pyEnteroDeFloat (comasAPuntosStr s) = some 2)) := by
  have := claim_C3_amended.1 colsEj
    [{ text := "2", left := 0, top := 40, width := 10, height := 10 },
     { text := "Tornillo", left := 100, top := 40, width := 10, height := 10 },
     { text := "21,00", left := 300, top := 40, width := 10, height := 10 }]
    { cant := 2, descripcion := "Tornillo", punit := some (21 : ℚ), importe := (21 : ℚ) }
    (by decide)
  exact this

/-- **C4.** After the header, any line whose lowered joined text holds
`"total"` and yields at least one parseable amount overwrites the document
total with the last such amount and is consumed as a total line; lines
without such a match never change the total; hence over any document split
`pre ++ [linea] ++ post` where `linea` is the last matching total line, the
final total is `linea`'s last parseable amount. -/
theorem claim_C4_ultima_total :
    (∀ (st : EstadoProc) (linea : List Palabra),
      st.estado ≠ Estado.buscandoColumnas →
      esSubcadena "total" (textoLinea linea) = true →
      montosEnLinea linea ≠ [] →
      pasoLinea st linea =
        { detalles := st.detalles, total_factura := (montosEnLinea linea).getLast?,
          columnas := st.columnas, estado := Estado.buscandoTotal }) ∧
    (∀ (st : EstadoProc) (lineas : List (List Palabra)),
      st.estado ≠ Estado.buscandoColumnas →
      (∀ l ∈ lineas, esSubcadena "total" (textoLinea l) = true → montosEnLinea l = []) →
      (lineas.foldl pasoLinea st).total_factura = st.total_factura) ∧
    (∀ (st : EstadoProc) (pre : List (List Palabra)) (linea : List Palabra)
      (post : List (List Palabra)),
      st.estado ≠ Estado.buscandoColumnas →
      esSubcadena "total" (textoLinea linea) = true →
      montosEnLinea linea ≠ [] →
      (∀ l ∈ post, esSubcadena "total" (textoLinea l) = true → montosEnLinea l = []) →
      ((pre ++ linea :: post).foldl pasoLinea st).total_factura =
        (montosEnLinea linea).getLast?) := by
  refine ⟨pasoLinea_total_hit, fun st lineas h1 h2 => foldl_total_sin lineas st h1 h2, ?_⟩
  intro st pre linea post h1 h2 h3 h4
  rw [List.foldl_append, List.foldl_cons]
  have hpre : (pre.foldl pasoLinea st).estado ≠ Estado.buscandoColumnas :=
    foldl_estado_ne pre st h1
  rw [pasoLinea_total_hit (pre.foldl pasoLinea st) linea hpre h2 h3]
  rw [foldl_total_sin post _ (by simp) h4]

/-- **C4 (witness).** A second total line `Total 21,00` overwrites an
earlier total of 25. -/
theorem claim_C4_witness :
    ((([] : List (List Palabra)) ++ lineaTotalEj :: ([] : List (List Palabra))).foldl
      pasoLinea stEjC4).total_factura = (montosEnLinea lineaTotalEj).getLast? :=
  claim_C4_ultima_total.2.2 stEjC4 [] lineaTotalEj [] (by decide) (by decide)
    (by decide) (by intro l hl; cases hl)

/-- **C5 (counterexample).** In `docEjC5` the post-total detail line
`3 Clavo 10,00` would consolidate into a LineItem under the document's
anchors, yet the result holds only the pre-total item: in `buscando_total`
the line is not forwarded to detail assignment. -/
theorem claim_C5_counterexample :
    (reconocer_factura docEjC5).1 =
      [{ cant := 2, descripcion := "Tornillo", punit := some (21 : ℚ),
         importe := (21 : ℚ) }] ∧
    consolidarDetalle colsEj lineaPostTotal =
      some { cant := 3, descripcion := "Clavo", punit := some (10 : ℚ),
             importe := (10 : ℚ) } ∧
    (reconocer_factura docEjC5).2.1 = some (21 : ℚ) :=
  ⟨by decide, by decide, by decide⟩

/-- **C5 (amended).** Once the state is `buscando_total`, no later line is
forwarded to detail assignment: the detail list is frozen (detail
extraction happens only in `extrayendo_detalles`), and the state never
leaves `buscando_total`. -/
theorem claim_C5_amended :
    ∀ (st : EstadoProc) (lineas : List (List Palabra)),
      st.estado = Estado.buscandoTotal →
      (lineas.foldl pasoLinea st).detalles = st.detalles ∧
      (lineas.foldl pasoLinea st).estado = Estado.buscandoTotal := by
  intro st lineas
  induction lineas generalizing st with
  | nil => intro h; exact ⟨rfl, h⟩
  | cons l ls ih =>
    intro h
    have hp := pasoLinea_buscandoTotal st l h
    simp only [List.foldl_cons]
    have hrec := ih (pasoLinea st l) hp.2
    exact ⟨hrec.1.trans hp.1, hrec.2⟩

/-- **C5 (witness).** The freeze applied to a concrete post-total state and
the concrete detail line of `docEjC5`. -/
theorem claim_C5_witness :
    (([lineaPostTotal].foldl pasoLinea stEjC5).detalles = stEjC5.detalles) ∧
    (([lineaPostTotal].foldl pasoLinea stEjC5).estado = Estado.buscandoTotal) :=
  claim_C5_amended stEjC5 [lineaPostTotal] (by decide)

/-- **C10 (counterexample).** The claim as stated — a present-but-unparsable
`P.Unit` token still yields a LineItem "provided description and amount are
valid" — fails on the code: in the line `x Tornillo 1O,50 21,00` under all
four anchors, the `P.Unit` token `"1O,50"` does not parse, the amount
`"21,00"` parses to 21 and the description `"Tornillo"` is non-empty, yet
no LineItem is emitted: the quantity token `"x"` raises `ValueError` at
line 176 and the `except` discards the whole line. -/
theorem claim_C10_counterexample :
    normalizar_monto "1O,50" = none ∧
    normalizar_monto "21,00" = some (21 : ℚ) ∧
    textosAsignados colsEj4 lineaEjC10mal Columna.descripcion = ["Tornillo"] ∧
    textosAsignados colsEj4 lineaEjC10mal Columna.punit = ["1O,50"] ∧
    consolidarDetalle colsEj4 lineaEjC10mal = none :=
  ⟨by decide, by decide, by decide, by decide, by decide⟩

/-- **C10 (amended).** A detail line whose `P.Unit` token is present but
unparsable still yields a LineItem — with unit price `none`, never the
amount — provided the amount parses, the description is non-empty, *and*
the quantity slot does not abort the consolidation (its text absent or
parseable; an unparsable quantity discards the line even with valid amount
and description, as the counterexample shows); and for every emitted
LineItem the unit price is the normalization of the first `P.Unit` text
whenever such a (truthy) text exists — the amount fallback happens exactly
when no `P.Unit` text was assigned. -/
theorem claim_C10_punit_sin_reemplazo :
    (∀ (cols : MapaColumnas) (linea : List Palabra) (cs : Option String)
      (s istr : String) (q : ℚ) (n : Int),
      primerTexto cols linea Columna.cant = Except.ok cs →
      cantidadDe cs = some n →
      primerTexto cols linea Columna.punit = Except.ok (some s) →
      s ≠ "" →
      normalizar_monto s = none →
      primerTexto cols linea Columna.importe = Except.ok (some istr) →
      istr ≠ "" →
      normalizar_monto istr = some q →
      unirConEspacios (textosAsignados cols linea Columna.descripcion) ≠ "" →
      consolidarDetalle cols linea =
        some { cant := n,
               descripcion := unirConEspacios (textosAsignados cols linea Columna.descripcion),
               punit := none, importe := q }) ∧
    (∀ (cols : MapaColumnas) (linea : List Palabra) (d : Detalle),
      consolidarDetalle cols linea = some d →
      ∃ ps, primerTexto cols linea Columna.punit = Except.ok ps ∧
        ((∃ s, ps = some s ∧ s ≠ "" ∧ d.punit = normalizar_monto s) ∨
         (esVerdadero ps = false ∧ d.punit = some d.importe))) := by
  constructor
  · intro cols linea cs s istr q n hc hcant hp hs hn hi hi2 hq hd
    rw [consolidarDetalle_ok cols linea cs (some s) (some istr) hc hp hi,
        consolidarCampos_some cs (some s) istr _ q n hi2 hd hq hcant,
        punitDe_presente s q hs, hn]
  · intro cols linea d h
    cases hc : primerTexto cols linea Columna.cant with
    | error e =>
      rw [consolidarDetalle_error1 cols linea e hc] at h
      exact Option.noConfusion h
    | ok cs =>
      cases hp : primerTexto cols linea Columna.punit with
      | error e =>
        rw [consolidarDetalle_error2 cols linea cs e hc hp] at h
        exact Option.noConfusion h
      | ok ps =>
        cases hi : primerTexto cols linea Columna.importe with
        | error e =>
          rw [consolidarDetalle_error3 cols linea cs ps e hc hp hi] at h
          exact Option.noConfusion h
        | ok istr? =>
          rw [consolidarDetalle_ok cols linea cs ps istr? hc hp hi] at h
          rcases consolidarCampos_spec cs ps istr? _ d h with ⟨istr, q, n, his, hq, hn, rfl⟩
          refine ⟨ps, rfl, ?_⟩
          by_cases hv : esVerdadero ps = true
          · cases ps with
            | none => simp [esVerdadero] at hv
            | some s =>
              refine Or.inl ⟨s, rfl, by simpa [esVerdadero] using hv, ?_⟩
              show punitDe (some s) q = normalizar_monto s
              exact punitDe_presente s q (by simpa [esVerdadero] using hv)
          · have hv' : esVerdadero ps = false := by simpa using hv
            refine Or.inr ⟨hv', ?_⟩
            show punitDe ps q = some q
            exact punitDe_ausente ps q hv'

/-- **C10 (witness).** The concrete line `2 Tornillo 1O,50 21,00` with all
four anchors: the `P.Unit` token `"1O,50"` does not parse, yet the item is
emitted, with `punit = none` and no fallback to the amount. -/
theorem claim_C10_witness :
    consolidarDetalle colsEj4 lineaEjC10 =
      some { cant := 2,
             descripcion := unirConEspacios (textosAsignados colsEj4 lineaEjC10 Columna.descripcion),
             punit := none, importe := (21 : ℚ) } :=
  claim_C10_punit_sin_reemplazo.1 colsEj4 lineaEjC10 (some "2") "1O,50" "21,00"
    (21 : ℚ) 2 (by rfl) (by decide) (by rfl) (by decide) (by decide)
    (by rfl) (by decide) (by decide) (by decide)

/-- **C8.** The anchor dict's keys always follow the fixed column order
`Cant, Descripción, P.Unit, Importe` (they are inserted during the single
header line in `MAPEO_COLUMNAS` order), and `columnaCercana` — the model of
`min(distancias, key=distancias.get)` — picks an anchored column of
minimal absolute distance, breaking ties in favour of the earliest column
in that fixed order. -/
theorem claim_C8_asignacion_cercana :
    (∀ datos : List PalabraRaw,
      List.Sublist ((columnasDe datos).map Prod.fst) ordenColumnas) ∧
    (∀ (cols : MapaColumnas) (izq : Int) (c : Columna),
      List.Sublist (cols.map Prod.fst) ordenColumnas →
      columnaCercana izq cols = some c →
      ∃ pos, (c, pos) ∈ cols ∧
        (∀ q ∈ cols, distanciaA izq (c, pos) ≤ distanciaA izq q) ∧
        (∀ q ∈ cols, distanciaA izq q = distanciaA izq (c, pos) →
          indiceCol c ≤ indiceCol q.1)) := by
  refine ⟨columnasDe_sublist, ?_⟩
  intro cols izq c hsub hcc
  cases cols with
  | nil => exact Option.noConfusion hcc
  | cons par0 resto =>
    rcases columnaCercana_spec izq par0 resto with ⟨l1, par, l2, hdec, heq, hmin, hstrict⟩
    rw [heq] at hcc
    have hc := Option.some.inj hcc
    subst hc
    refine ⟨par.2, ?_, ?_, ?_⟩
    · rw [hdec]
      exact List.mem_append_right l1 (List.mem_cons_self par l2)
    · intro q hq
      exact hmin q hq
    · intro q hq hdq
      have hdq' : distanciaA izq q = distanciaA izq par := hdq
      have hpw := keys_pairwise_indice (par0 :: resto) hsub
      rw [hdec] at hpw hq
      rcases List.mem_append.mp hq with hq1 | hq2
      · have h1 := hstrict q hq1
        rw [hdq'] at h1
        exact absurd h1 (lt_irrefl _)
      · rcases List.mem_cons.mp hq2 with rfl | hq3
        · exact le_refl _
        · rcases List.pairwise_append.mp hpw with ⟨-, hpw2, -⟩
          rcases List.pairwise_cons.mp hpw2 with ⟨hpar, -⟩
          exact le_of_lt (hpar q hq3)

/-- **C8 (witness).** A word at left 50 is equidistant (50px) from the
`Cant` anchor at 0 and the `Descripción` anchor at 100; the tie goes to
`Cant`, the earlier column in the fixed order. -/
theorem claim_C8_witness :
    ∃ pos, (Columna.cant, pos) ∈
        ([(Columna.cant, 0), (Columna.descripcion, 100)] : MapaColumnas) ∧
      (∀ q ∈ ([(Columna.cant, 0), (Columna.descripcion, 100)] : MapaColumnas),
        distanciaA 50 (Columna.cant, pos) ≤ distanciaA 50 q) ∧
      (∀ q ∈ ([(Columna.cant, 0), (Columna.descripcion, 100)] : MapaColumnas),
        distanciaA 50 q = distanciaA 50 (Columna.cant, pos) →
        indiceCol Columna.cant ≤ indiceCol q.1) :=
  claim_C8_asignacion_cercana.2 [(Columna.cant, 0), (Columna.descripcion, 100)] 50
    Columna.cant (by decide) (by decide)

/-- **C7.** LineGrouper: the filtered words are stably sorted by
`(top, left)` ascending (a sorted permutation of the filtered words); the
emitted lines are exactly the maximal walk-runs — consecutive words fewer
than 20 pixels apart in `top`, with at least 20 pixels between the last
appended word of one run and the first word of the next — each re-sorted by
`left`; hence every line's words are ordered left-to-right, the lines are
in top-to-bottom order, and no word is lost or duplicated. -/
theorem claim_C7_agrupacion (datos : List PalabraRaw) :
    List.Perm (palabrasOrdenadasDe datos) (palabrasFiltradas datos) ∧
    (palabrasOrdenadasDe datos).Pairwise
      (fun a b => a.top < b.top ∨ (a.top = b.top ∧ a.left ≤ b.left)) ∧
    (∀ l ∈ lineasDe datos, l.Pairwise (fun a b => a.left ≤ b.left)) ∧
    (lineasDe datos).Pairwise (fun l1 l2 => ∀ a ∈ l1, ∀ b ∈ l2, a.top ≤ b.top) ∧
    List.Perm (lineasDe datos).flatten (palabrasOrdenadasDe datos) ∧
    (∃ runs : List (List Palabra),
      runs.flatten = palabrasOrdenadasDe datos ∧
      lineasDe datos = runs.map ordenarPorLeft ∧
      (∀ r ∈ runs, r ≠ [] ∧ r.Chain' (fun a b => (b.top - a.top).natAbs < 20)) ∧
      runs.Chain' (fun r r' => ∀ x ∈ r.getLast?, ∀ y ∈ r'.head?,
        20 ≤ (y.top - x.top).natAbs)) := by
  have h1 : List.Perm (palabrasOrdenadasDe datos) (palabrasFiltradas datos) :=
    perm_ordenarEstable claveTopLeft (palabrasFiltradas datos)
  have h2 := pairwise_ordenarEstable claveTopLeft claveTopLeft_trans
    claveTopLeft_total (palabrasFiltradas datos)
  have h2' : (palabrasOrdenadasDe datos).Pairwise
      (fun a b => a.top < b.top ∨ (a.top = b.top ∧ a.left ≤ b.left)) :=
    h2.imp (fun h => by simpa [claveTopLeft, decide_eq_true_eq] using h)
  have h3 := agrupar_propiedades (palabrasOrdenadasDe datos)
    (h2'.imp (fun h => by
      rcases h with h | ⟨h, -⟩
      · exact le_of_lt h
      · exact le_of_eq h))
  exact ⟨h1, h2', h3.1, h3.2.1, h3.2.2.1, h3.2.2.2⟩

/-- **C7 (witness).** The grouping properties applied to the concrete
document `docEjC5`: no word is lost, and the post-total line (a member of
the grouped lines) is left-sorted. -/
theorem claim_C7_witness :
    List.Perm (lineasDe docEjC5).flatten (palabrasOrdenadasDe docEjC5) ∧
    lineaPostTotal.Pairwise (fun a b => a.left ≤ b.left) :=
  ⟨(claim_C7_agrupacion docEjC5).2.2.2.2.1,
   (claim_C7_agrupacion docEjC5).2.2.1 lineaPostTotal (by decide)⟩

end ClaimTheorems

end Facturas

